import Mathlib

/-
A verification development for the declarative CLI definition and dispatch
engine of `littlelanguages/deno-lib-console-cli` (`src/mod.ts`).

The engine is shallowly embedded as follows.

* The mutable token array `args : Array<string>` becomes a `List String`
  threaded through every function; "splice(0, 1)" becomes dropping the head.
* The value store `Map<string, _>` becomes a function `String → Option Value`
  (`Map.set` is last-write-wins overwrite, `Map.get` is lookup, no deletions).
* Process effects are made explicit in the result type `Eff α`:
  `.ok out a` is a normal return carrying the lines written to standard
  output so far, `.exit out code` is `Deno.exit(code)` after writing `out`.
  `console.log` and the rendered output of the pretty-printing collaborator
  both target standard output, the model's single output channel.
* Caller-supplied callbacks (`DoOption.action`, `ValueCommand.action`) are
  embedded as Lean functions returning `Eff`.  In the source they receive the
  `Definition` as their first argument; strict positivity prevents storing a
  `Definition → ...` function inside the option/command tree, so the modelled
  callbacks close over whatever definition data they need instead (the only
  callbacks in the repository, `helpFlag` and `helpCmd`, use it solely for
  help rendering).  The source also hands callbacks the token array by
  reference; every callback in the repository leaves it untouched, and the
  model accordingly passes the remaining tokens to the callback read-only.
* The source is synchronous except for the unawaited promises returned by
  `Option.doNow`; the model runs each callback's effect to completion inline.
-/

namespace ConsoleCli

/-- Model of JavaScript `s.startsWith(p)`: `p` is a prefix of `s`. -/
def jsStartsWith (s p : String) : Bool := p.data.isPrefixOf s.data

/-- A value stored in the value store: `FlagOption` writes the boolean `true`,
`ValueOption` writes a string (mod.ts:83-86, 137). -/
inductive Value where
  | bool (b : Bool)
  | str (s : String)
deriving DecidableEq

/-- The value store `Map<string, _>` (mod.ts:20): canonical option key to value. -/
def Store : Type := String → Option Value

/-- The empty store `new Map()` (mod.ts:20). -/
def Store.empty : Store := fun _ => none

/-- `Map.set`: overwrite-or-insert, last write wins (mod.ts §4.1). -/
def Store.set (s : Store) (k : String) (v : Value) : Store :=
  fun q => if q = k then some v else s q

/-- `Map.get`: lookup; `none` is the absent sentinel. -/
def Store.get (s : Store) (k : String) : Option Value := s k

/-- Result of running a piece of the engine: a normal return or a process
exit, each carrying the standard-output lines written along the way. -/
inductive Eff (α : Type) where
  | ok (out : List String) (a : α)
  | exit (out : List String) (code : Int)

/-- Prepend previously written output lines to a result. -/
def Eff.withOut (out : List String) : Eff α → Eff α
  | .ok out' a => .ok (out ++ out') a
  | .exit out' c => .exit (out ++ out') c

/-- Model of `reportErrorAndTerminate` (mod.ts:188-191): write the single line
"Error: <msg>" to standard output via `console.log`, then `Deno.exit(-1)`. -/
def reportErrorAndTerminate {α : Type} (errorMsg : String) : Eff α :=
  .exit ["Error: " ++ errorMsg] (-1)

/-- Model of the helper `dropWhile` (mod.ts:93-105): drop the longest prefix of
characters satisfying `p`.  The source walks an index over one-character
substrings and returns the remaining substring; on the character list this is
exactly `List.dropWhile`. -/
def dropWhileStr (s : String) (p : Char → Bool) : String :=
  ⟨s.data.dropWhile p⟩

/-- The canonical store key of an option: its first declared tag with all
leading `-` characters stripped, `dropWhile(this.tags[0], (c) => c == "-")`
(mod.ts:84, 137).  The source indexes `tags[0]` unconditionally; tag lists are
non-empty by the data-model invariant, and the model totalises with `headD`. -/
def canonicalKey (tags : List String) : String :=
  dropWhileStr (tags.headD "") (fun c => c == '-')

/-- The characters strictly after the first `'='`, or `none` when there is no
`'='`.  Implements `value.indexOf("=")` followed by
`value.substring(indexOfEqual + 1)` (mod.ts:81-86). -/
def afterFirstEq : List Char → Option (List Char)
  | [] => none
  | c :: cs => if c = '=' then some cs else afterFirstEq cs

/-- `value.substring(value.indexOf("=") + 1)` (mod.ts:81-86): the substring
after the first `'='`; when `indexOf` returns `-1` this is `substring(0)`,
the whole string. -/
def valueAfterEq (s : String) : String :=
  match afterFirstEq s.data with
  | some cs => ⟨cs⟩
  | none => s

/-- A `DoOption` callback (mod.ts:145-149), embedded as a function of the
remaining tokens and the store; see the header note on callbacks. -/
def DoAction : Type := List String → Store → Eff Store

/-- The `Option` class hierarchy (mod.ts:39-47) as a sum:
`ValueOption` (mod.ts:49-91), `FlagOption` (mod.ts:107-140) and
`DoOption` (mod.ts:142-186), each carrying its `tags` and `help` fields. -/
inductive Opt where
  | value (tags : List String) (help : String)
  | flag (tags : List String) (help : String)
  | action (tags : List String) (help : String) (act : DoAction)

/-- The per-variant matching predicate `canDo(args)`.
`ValueOption.canDo` (mod.ts:71-73): some tag satisfies
`args[0].startsWith(t + "=")`; `FlagOption.canDo` (mod.ts:127-129) and
`DoOption.canDo` (mod.ts:173-175): some tag equals `args[0]`.  The source
reads `args[0]` unconditionally and is only ever called with non-empty
`args`; the model returns `false` on the empty list. -/
def Opt.canDo : Opt → List String → Bool
  | .value tags _, a :: _ => tags.any fun t => jsStartsWith a (t ++ "=")
  | .flag tags _, a :: _ => tags.any fun t => t == a
  | .action tags _ _, a :: _ => tags.any fun t => t == a
  | _, [] => false

/-- The per-variant `doNow(cli, args, values)`.
`ValueOption.doNow` (mod.ts:75-91): store the substring of `args[0]` after its
first `'='` under the canonical key, then `args.splice(0, 1)`.
`FlagOption.doNow` (mod.ts:131-139): `args.splice(0, 1)`, then store `true`
under the canonical key.  `DoOption.doNow` (mod.ts:177-185):
`args.splice(0, 1)`, then run the callback on the remaining tokens. -/
def Opt.doNow (o : Opt) (args : List String) (store : Store) :
    Eff (List String × Store) :=
  match o with
  | .value tags _ =>
      .ok [] (args.drop 1,
        store.set (canonicalKey tags) (.str (valueAfterEq (args.headD ""))))
  | .flag tags _ =>
      .ok [] (args.drop 1, store.set (canonicalKey tags) (.bool true))
  | .action _ _ act =>
      match act (args.drop 1) store with
      | .ok out store' => .ok out (args.drop 1, store')
      | .exit out c => .exit out c

set_option linter.unusedVariables false in
/-- The Option-List Processor `processOptions` (mod.ts:268-288): while tokens
remain and the head starts with `-`, consume the `--` terminator and stop, or
apply the first declared option whose `canDo` holds, or report
"Invalid option <token>" and terminate. -/
def processOptions (options : List Opt) (args : List String) (store : Store) :
    Eff (List String × Store) :=
  match args with
  | [] => .ok [] ([], store)
  | a :: rest =>
    if jsStartsWith a "-" then
      if a = "--" then .ok [] (rest, store)
      else
        match options.find? (fun o => o.canDo (a :: rest)) with
        | none => reportErrorAndTerminate ("Invalid option " ++ a)
        | some o =>
          match h : o.doNow (a :: rest) store with
          | .exit out code => .exit out code
          | .ok out (args', store') =>
            Eff.withOut out (processOptions options args' store')
    else .ok [] (a :: rest, store)
  termination_by args.length
  decreasing_by
    cases o with
    | value tags help =>
        simp only [Opt.doNow, Eff.ok.injEq, Prod.mk.injEq, List.drop_one,
          List.tail_cons] at h
        simp [← h.2.1]
    | flag tags help =>
        simp only [Opt.doNow, Eff.ok.injEq, Prod.mk.injEq, List.drop_one,
          List.tail_cons] at h
        simp [← h.2.1]
    | action tags help act =>
        simp only [Opt.doNow, List.drop_one, List.tail_cons] at h
        cases hact : act rest store with
        | ok o s => rw [hact] at h; simp at h; simp [← h.2.1]
        | exit o c => rw [hact] at h; simp at h

/-- The built-in help flag `helpFlag` (mod.ts:231-238) as the engine actually
drives it.  `DoOption.doNow` invokes the callback without awaiting the
returned promise (mod.ts:183), and an `async` callback only runs up to its
first `await` before control returns to the engine; `helpFlag`'s body is
`await show(cli); Deno.exit(0)`, so its synchronous prefix merely schedules
the help rendering — it performs no store write and no exit, and both the
rendering's completion and the `Deno.exit(0)` sit in the microtask queue
behind the engine's own synchronous continuation (which `Deno.exit`
terminates without draining).  The callback's effect as seen by the engine is
therefore a no-op. -/
def helpFlagSyncPrefix : Opt :=
  .action ["-h", "--help"] "Prints help information" (fun _ store => .ok [] store)

/-- The positional-value descriptor `ShowValue` (mod.ts:240-244). -/
structure ShowValue where
  name : String
  optional : Bool
  help : String

/-- A `ValueCommand` action callback (mod.ts:292-296), embedded as a function
of the optional positional value and the store; see the header note. -/
def CmdAction : Type := Option String → Store → Eff Unit

/-- The `Command` hierarchy (mod.ts:246-266); the repository's only concrete
variant is `ValueCommand` (mod.ts:290-363) with `name`, `help`, `options`,
its `ShowValue` descriptor and its action. -/
inductive Cmd where
  | value (name : String) (help : String) (options : List Opt)
      (showValue : ShowValue) (act : CmdAction)

/-- The `name` field of a command (mod.ts:247). -/
def Cmd.name : Cmd → String
  | .value n _ _ _ _ => n

/-- `ValueCommand.canDo` (mod.ts:314-316):
`args.length > 0 && args[0] == this.name`. -/
def Cmd.canDo (c : Cmd) (args : List String) : Bool :=
  match args with
  | [] => false
  | a :: _ => a == c.name

/-- `ValueCommand.doNow` (mod.ts:318-336), called after the caller consumed
the command-name token: process the command's own option list, then inspect
the remaining tokens — zero left: run the action with an absent value when
`showValue.optional`, else report "<name> requires a value"; exactly one
left: run the action on it; more: report "Too many arguments <tokens>"
(JavaScript renders the `${args}` array as its elements joined by ","). -/
def Cmd.doNow (c : Cmd) (args : List String) (store : Store) : Eff Unit :=
  match c with
  | .value _ _ opts sv act =>
    match processOptions opts args store with
    | .exit out code => .exit out code
    | .ok out (args', store') =>
      match args' with
      | [] =>
          if sv.optional then Eff.withOut out (act none store')
          else Eff.withOut out
            (reportErrorAndTerminate (sv.name ++ " requires a value"))
      | [v] => Eff.withOut out (act (some v) store')
      | v1 :: v2 :: vs =>
          Eff.withOut out (reportErrorAndTerminate
            ("Too many arguments " ++ String.intercalate "," (v1 :: v2 :: vs)))

/-- The CLI `Definition` record (mod.ts:12-17). -/
structure Definition where
  name : String
  help : String
  options : List Opt
  cmds : List Cmd

/-- The dispatcher `process` (mod.ts:19-37).  `argv` is the snapshot
`[...Deno.args]`; the store starts empty.  After the global option list is
processed: no tokens left reports "Invalid arguments - no command specified";
otherwise the first declared command whose `canDo` holds is selected, else
"Invalid command <token>"; on a match the command-name token is consumed
(`args.splice(0, 1)`) and the command's `doNow` runs. -/
def process (cli : Definition) (argv : List String) : Eff Unit :=
  match processOptions cli.options argv Store.empty with
  | .exit out code => .exit out code
  | .ok out (args, values) =>
    match args with
    | [] =>
        Eff.withOut out
          (reportErrorAndTerminate "Invalid arguments - no command specified")
    | a :: rest =>
      match cli.cmds.find? (fun c => c.canDo (a :: rest)) with
      | none => Eff.withOut out (reportErrorAndTerminate ("Invalid command " ++ a))
      | some cmd => Eff.withOut out (cmd.doNow rest values)

/-- Model of the `helpCmd` action (mod.ts:365-391).  With no positional value
it renders the top-level help; with value `v` it looks `v` up among the
declared commands, reporting "Unknown command <v>" when none matches, and
renders that command's usage block otherwise.  Document layout is delegated
to the external pretty-printing collaborator, so the model abstracts the
rendered text of the two help documents as the given line lists; the command
list is closed over rather than read from a `Definition` argument (see the
header note on callbacks). -/
def helpCmdAction (cmds : List Cmd) (renderedTop : List String)
    (renderedCmd : Cmd → List String) : CmdAction := fun value _ =>
  match value with
  | none => .ok renderedTop ()
  | some v =>
    match cmds.find? (fun c => c.name == v) with
    | none => reportErrorAndTerminate ("Unknown command " ++ v)
    | some c => .ok (renderedCmd c) ()

@[simp]
theorem Eff.withOut_ok {α : Type} (o out : List String) (a : α) :
    Eff.withOut o (.ok out a) = .ok (o ++ out) a := rfl

@[simp]
theorem Eff.withOut_exit {α : Type} (o out : List String) (c : Int) :
    (Eff.withOut o (.exit out c) : Eff α) = .exit (o ++ out) c := rfl

theorem doNow_ok_args {o : Opt} {args : List String} {store : Store}
    {out args' : List String} {store' : Store}
    (h : o.doNow args store = .ok out (args', store')) : args' = args.tail := by
  cases o with
  | value tags help => simp [Opt.doNow] at h; exact h.2.1.symm
  | flag tags help => simp [Opt.doNow] at h; exact h.2.1.symm
  | action tags help act =>
      simp only [Opt.doNow, List.drop_one] at h
      cases hact : act args.tail store with
      | ok o s => rw [hact] at h; simp at h; exact h.2.1.symm
      | exit o c => rw [hact] at h; simp at h

theorem find?_eq_some_of_first {α : Type} (l : List α) (p : α → Bool)
    (i : Nat) (x : α) (hi : l[i]? = some x) (hx : p x = true)
    (hfirst : ∀ j, j < i → ∀ y, l[j]? = some y → p y = false) :
    l.find? p = some x := by
  induction l generalizing i with
  | nil => simp at hi
  | cons b l ih =>
      cases i with
      | zero =>
          simp at hi
          subst hi
          simp [List.find?, hx]
      | succ n =>
          have hb : p b = false := hfirst 0 (Nat.succ_pos n) b (by simp)
          simp at hi
          rw [List.find?, hb]
          exact ih n hi fun j hj y hy =>
            hfirst (j + 1) (Nat.succ_lt_succ hj) y (by simpa using hy)

/-- C1: whenever `processOptions` returns normally, the resulting token list is
empty, or its head does not start with `-`, or the list at the final step was
the literal `--` terminator followed by exactly the returned tokens — the
terminator alone was consumed and everything after it is untouched (since the
processor only ever drops tokens from the front, that step is the suffix
`args.drop k` of the input for some `k`). -/
theorem processOptions_normal_return (options : List Opt) (args : List String)
    (store : Store) :
    ∀ (out args' : List String) (store' : Store),
      processOptions options args store = .ok out (args', store') →
      args' = [] ∨ (∃ a t, args' = a :: t ∧ jsStartsWith a "-" = false) ∨
        ∃ k, args.drop k = "--" :: args' := by
  induction args, store using processOptions.induct options with
  | case1 store =>
      intro out args' store' h
      simp [processOptions] at h
      exact Or.inl h.2.1
  | case2 store rest hdash =>
      intro out args' store' h
      simp [processOptions, hdash] at h
      exact Or.inr (Or.inr ⟨0, by simp [h.2.1]⟩)
  | case3 store a rest hdash hne hfind =>
      intro out args' store' h
      simp [processOptions, hdash, hne, hfind, reportErrorAndTerminate] at h
  | case4 store a rest hdash hne o hfind out0 code hdo =>
      intro out args' store' h
      simp only [processOptions, hdash, hne, hfind] at h
      simp at h
      split at h
      · simp at h
      · rename_i out1 args1 store1 heq
        rw [hdo] at heq
        simp at heq
  | case5 store a rest hdash hne o hfind out0 args0 store0 hdo ih =>
      intro out args' store' h
      have hargs0 : args0 = rest := by simpa using doNow_ok_args hdo
      simp only [processOptions, hdash, hne, hfind] at h
      simp at h
      split at h
      · simp at h
      · rename_i out1 args1 store1 heq
        rw [hdo] at heq
        simp at heq
        obtain ⟨h1, h2, h3⟩ := heq
        subst h1; subst h2; subst h3
        cases hrec : processOptions options args0 store0 with
        | exit o2 c2 => rw [hrec] at h; simp at h
        | ok o2 r2 =>
            rw [hrec] at h
            simp at h
            obtain ⟨-, hr⟩ := h
            rcases ih o2 args' store' (by rw [hrec, hr]) with h1 | h2 | ⟨k, hk⟩
            · exact Or.inl h1
            · exact Or.inr (Or.inl h2)
            · exact Or.inr (Or.inr ⟨k + 1, by simpa [hargs0] using hk⟩)
  | case6 store a rest hdash =>
      intro out args' store' h
      simp [processOptions, hdash] at h
      exact Or.inr (Or.inl ⟨a, rest, h.2.1.symm, by simpa using hdash⟩)

theorem afterFirstEq_append (cs vs : List Char) (h : '=' ∉ cs) :
    afterFirstEq (cs ++ '=' :: vs) = some vs := by
  induction cs with
  | nil => simp [afterFirstEq]
  | cons c cs ih =>
      simp only [List.mem_cons, not_or] at h
      have hc : ¬(c = '=') := fun hcc => h.1 hcc.symm
      simp [afterFirstEq, hc, ih h.2]

theorem valueAfterEq_append (t v : String) (h : '=' ∉ t.data) :
    valueAfterEq (t ++ "=" ++ v) = v := by
  unfold valueAfterEq
  rw [String.data_append, String.data_append]
  have : ("=" : String).data = ['='] := rfl
  rw [this, List.append_assoc, List.singleton_append,
    afterFirstEq_append t.data v.data h]

theorem dropWhile_dash_append (ds ks : List Char)
    (hds : ∀ c ∈ ds, c = '-') (hks : ks.head? ≠ some '-') :
    (ds ++ ks).dropWhile (fun c => c == '-') = ks := by
  induction ds with
  | nil =>
      cases ks with
      | nil => simp
      | cons k ks =>
          have hk : (k == '-') = false := by
            simpa using fun hkk => hks (by simp [hkk])
          simp [List.dropWhile, hk]
  | cons d ds ih =>
      have hd : d = '-' := hds d (by simp)
      simp only [List.cons_append, List.dropWhile, hd]
      simpa using ih (fun c hc => hds c (by simp [hc]))

theorem canonicalKey_eq (tag0 : String) (tagsRest : List String)
    (ds ks : List Char) (htag : tag0.data = ds ++ ks)
    (hds : ∀ c ∈ ds, c = '-') (hks : ks.head? ≠ some '-') :
    canonicalKey (tag0 :: tagsRest) = ⟨ks⟩ := by
  unfold canonicalKey dropWhileStr
  simp only [List.headD_cons]
  rw [htag, dropWhile_dash_append ds ks hds hks]

/-- C2: applying a `ValueOption`'s `doNow` to a token list whose head matches
it consumes exactly the head token, splits it at its first `'='` (the part
before the `'='` being `'='`-free), and stores the substring after that `'='`
under the canonical key — the first declared tag with all leading `-`
characters stripped (`tag0` decomposing as dashes `ds` followed by `ks`,
which does not start with a dash). -/
theorem valueOption_doNow_stores_value (tags : List String) (help : String)
    (a : String) (rest : List String) (store : Store)
    (hcan : (Opt.value tags help).canDo (a :: rest) = true)
    (t v : String) (ht : '=' ∉ t.data) (ha : a = t ++ "=" ++ v)
    (tag0 : String) (tagsRest : List String) (htags : tags = tag0 :: tagsRest)
    (ds ks : List Char) (htag : tag0.data = ds ++ ks)
    (hds : ∀ c ∈ ds, c = '-') (hks : ks.head? ≠ some '-') :
    (Opt.value tags help).doNow (a :: rest) store =
      .ok [] (rest, store.set ⟨ks⟩ (.str v)) := by
  subst htags ha
  simp [Opt.doNow, valueAfterEq_append t v ht,
    canonicalKey_eq tag0 tagsRest ds ks htag hds hks]

/-- C3: after a `ValueCommand`'s own option list has been processed, the
remaining token count decides the outcome three ways — zero tokens with
`showValue.optional = true` runs the command's action on an absent value;
zero tokens with `showValue.optional = false` reports
"<showValue.name> requires a value" and exits with failure; exactly one token
runs the action on that token; more than one reports
"Too many arguments <tokens>" and exits with failure. -/
theorem valueCommand_doNow_cases (name help : String) (opts : List Opt)
    (sv : ShowValue) (act : CmdAction) (args : List String) (store : Store)
    (out args' : List String) (store' : Store)
    (hpo : processOptions opts args store = .ok out (args', store')) :
    (args' = [] → sv.optional = true →
      (Cmd.value name help opts sv act).doNow args store =
        Eff.withOut out (act none store')) ∧
    (args' = [] → sv.optional = false →
      (Cmd.value name help opts sv act).doNow args store =
        .exit (out ++ ["Error: " ++ sv.name ++ " requires a value"]) (-1)) ∧
    (∀ v, args' = [v] →
      (Cmd.value name help opts sv act).doNow args store =
        Eff.withOut out (act (some v) store')) ∧
    (1 < args'.length →
      (Cmd.value name help opts sv act).doNow args store =
        .exit (out ++ ["Error: Too many arguments " ++
          String.intercalate "," args']) (-1)) := by
  refine ⟨?_, ?_, ?_, ?_⟩
  · intro h1 h2
    subst h1
    simp [Cmd.doNow, hpo, h2]
  · intro h1 h2
    subst h1
    simp [Cmd.doNow, hpo, h2, reportErrorAndTerminate, String.append_assoc]
  · intro v h1
    subst h1
    simp [Cmd.doNow, hpo]
  · intro h1
    match args', h1 with
    | v1 :: v2 :: vs, _ =>
      simp [Cmd.doNow, hpo, reportErrorAndTerminate]
      rfl

/-- C4: when the head token is an option token (starts with `-`, is not the
`--` terminator) and `o` is the first option in declaration order whose
matching predicate accepts the token list (every earlier option's predicate
rejects it), the Option-List Processor applies exactly `o`: it exits when
`o.doNow` exits, and otherwise continues the loop on `o.doNow`'s resulting
tokens and store — resolution is purely by declaration order. -/
theorem processOptions_first_declared_wins (options : List Opt) (a : String)
    (rest : List String) (store : Store)
    (hdash : jsStartsWith a "-" = true) (hne : a ≠ "--")
    (i : Nat) (o : Opt) (hi : options[i]? = some o)
    (hcan : o.canDo (a :: rest) = true)
    (hfirst : ∀ j, j < i → ∀ o', options[j]? = some o' →
      o'.canDo (a :: rest) = false) :
    (∀ out code, o.doNow (a :: rest) store = .exit out code →
      processOptions options (a :: rest) store = .exit out code) ∧
    (∀ out args' store', o.doNow (a :: rest) store = .ok out (args', store') →
      processOptions options (a :: rest) store =
        Eff.withOut out (processOptions options args' store')) := by
  have hfind : options.find? (fun o => o.canDo (a :: rest)) = some o :=
    find?_eq_some_of_first options _ i o hi hcan hfirst
  constructor
  · intro out code hdo
    simp only [processOptions, hdash, hne, hfind]
    simp
    split
    · rename_i out1 code1 heq
      rw [hdo] at heq
      simp at heq
      simp [heq]
    · rename_i out1 args1 store1 heq
      rw [hdo] at heq
      simp at heq
  · intro out args' store' hdo
    simp only [processOptions, hdash, hne, hfind]
    simp
    split
    · rename_i out1 code1 heq
      rw [hdo] at heq
      simp at heq
    · rename_i out1 args1 store1 heq
      rw [hdo] at heq
      simp at heq
      obtain ⟨h1, h2, h3⟩ := heq
      subst h1; subst h2; subst h3
      rfl

/-- C5: after the global options are processed, the dispatcher errors with
"Invalid arguments - no command specified" when no tokens remain; a command's
`canDo` holds exactly when the head token equals its declared name (no prefix
matching, never on an empty list); when no command matches, it errors with
"Invalid command <token>"; and when the first command in declaration order
matches, the command-name token is consumed and that command's `doNow` runs
on the remaining tokens. -/
theorem process_dispatch (cli : Definition) (argv : List String)
    (out args : List String) (store : Store)
    (hpo : processOptions cli.options argv Store.empty = .ok out (args, store)) :
    (∀ (c : Cmd), c.canDo [] = false) ∧
    (∀ (c : Cmd) (a : String) (rest : List String),
      (c.canDo (a :: rest) = true ↔ a = c.name)) ∧
    (args = [] → process cli argv =
      .exit (out ++ ["Error: Invalid arguments - no command specified"]) (-1)) ∧
    (∀ a rest, args = a :: rest →
      cli.cmds.find? (fun c => c.canDo (a :: rest)) = none →
      process cli argv = .exit (out ++ ["Error: Invalid command " ++ a]) (-1)) ∧
    (∀ a rest, args = a :: rest →
      ∀ (i : Nat) (cmd : Cmd), cli.cmds[i]? = some cmd →
      cmd.canDo (a :: rest) = true →
      (∀ (j : Nat), j < i → ∀ (c' : Cmd), cli.cmds[j]? = some c' →
        c'.canDo (a :: rest) = false) →
      process cli argv = Eff.withOut out (cmd.doNow rest store)) := by
  refine ⟨?_, ?_, ?_, ?_, ?_⟩
  · intro c
    simp [Cmd.canDo]
  · intro c a rest
    simp [Cmd.canDo]
  · intro h1
    subst h1
    simp [process, hpo, reportErrorAndTerminate]
  · intro a rest h1 hfind
    subst h1
    simp [process, hpo, hfind, reportErrorAndTerminate]
    rfl
  · intro a rest h1 i cmd hi hcan hfirst
    subst h1
    have hfind : cli.cmds.find? (fun c => c.canDo (a :: rest)) = some cmd :=
      find?_eq_some_of_first cli.cmds _ i cmd hi hcan hfirst
    simp [process, hpo, hfind]

/-- C6: every fatal error — NoCommandSpecified, UnknownCommand, UnknownOption,
MissingRequiredValue, TooManyArguments, UnknownHelpTarget — appends exactly one
line "Error: <message>" to the output written so far (all output in the model
is `console.log`, i.e. standard output) and terminates with exit code `-1`,
which is non-zero; every such path ends in `.exit`, so nothing is recovered,
retried, or batched with another error. -/
theorem fatal_errors_single_line_then_exit :
    ((-1 : Int) ≠ 0) ∧
    (∀ (msg : String), (reportErrorAndTerminate msg : Eff Unit) =
      .exit ["Error: " ++ msg] (-1)) ∧
    (∀ (options : List Opt) (a : String) (rest : List String) (store : Store),
      jsStartsWith a "-" = true → a ≠ "--" →
      options.find? (fun o => o.canDo (a :: rest)) = none →
      processOptions options (a :: rest) store =
        .exit ["Error: Invalid option " ++ a] (-1)) ∧
    (∀ (cli : Definition) (argv out : List String) (store : Store),
      processOptions cli.options argv Store.empty = .ok out ([], store) →
      process cli argv =
        .exit (out ++ ["Error: Invalid arguments - no command specified"]) (-1)) ∧
    (∀ (cli : Definition) (argv out : List String) (a : String)
        (rest : List String) (store : Store),
      processOptions cli.options argv Store.empty = .ok out (a :: rest, store) →
      cli.cmds.find? (fun c => c.canDo (a :: rest)) = none →
      process cli argv = .exit (out ++ ["Error: Invalid command " ++ a]) (-1)) ∧
    (∀ (name help : String) (opts : List Opt) (sv : ShowValue) (act : CmdAction)
        (args : List String) (store : Store) (out : List String) (store' : Store),
      processOptions opts args store = .ok out ([], store') →
      sv.optional = false →
      (Cmd.value name help opts sv act).doNow args store =
        .exit (out ++ ["Error: " ++ sv.name ++ " requires a value"]) (-1)) ∧
    (∀ (name help : String) (opts : List Opt) (sv : ShowValue) (act : CmdAction)
        (args : List String) (store : Store) (out : List String)
        (v1 v2 : String) (vs : List String) (store' : Store),
      processOptions opts args store = .ok out (v1 :: v2 :: vs, store') →
      (Cmd.value name help opts sv act).doNow args store =
        .exit (out ++ ["Error: Too many arguments " ++
          String.intercalate "," (v1 :: v2 :: vs)]) (-1)) ∧
    (∀ (cmds : List Cmd) (renderedTop : List String)
        (renderedCmd : Cmd → List String) (v : String) (store : Store),
      cmds.find? (fun c => c.name == v) = none →
      helpCmdAction cmds renderedTop renderedCmd (some v) store =
        .exit ["Error: Unknown command " ++ v] (-1)) := by
  refine ⟨by decide, fun msg => rfl, ?_, ?_, ?_, ?_, ?_, ?_⟩
  · intro options a rest store hdash hne hfind
    simp [processOptions, hdash, hne, hfind, reportErrorAndTerminate]
    rfl
  · intro cli argv out store hpo
    simp [process, hpo, reportErrorAndTerminate]
  · intro cli argv out a rest store hpo hfind
    simp [process, hpo, hfind, reportErrorAndTerminate]
    rfl
  · intro name help opts sv act args store out store' hpo hopt
    simp [Cmd.doNow, hpo, hopt, reportErrorAndTerminate, String.append_assoc]
  · intro name help opts sv act args store out v1 v2 vs store' hpo
    simp [Cmd.doNow, hpo, reportErrorAndTerminate]
    rfl
  · intro cmds renderedTop renderedCmd v store hfind
    simp [helpCmdAction, hfind, reportErrorAndTerminate]
    rfl

/-- C8: a `FlagOption`'s matching predicate holds exactly when the head token
string-equals one of its declared tags; in particular a flag declared with tag
`-x` matches the token `-x` (and applying it stores `true` under key `x`) but
matches neither `-xx` nor `-x=y`. -/
theorem flagOption_exact_tag_match (tags : List String) (help a : String)
    (rest : List String) (store : Store) :
    ((Opt.flag tags help).canDo (a :: rest) = true ↔ a ∈ tags) ∧
    ((Opt.flag ["-x"] help).canDo ("-x" :: rest) = true) ∧
    ((Opt.flag ["-x"] help).canDo ("-xx" :: rest) = false) ∧
    ((Opt.flag ["-x"] help).canDo ("-x=y" :: rest) = false) ∧
    ((Opt.flag ["-x"] help).doNow ("-x" :: rest) store =
      .ok [] (rest, store.set "x" (.bool true))) := by
  refine ⟨?_, by simp [Opt.canDo], by simp [Opt.canDo], by simp [Opt.canDo],
    by simp [Opt.doNow, canonicalKey, dropWhileStr]⟩
  simp only [Opt.canDo, List.any_eq_true, beq_iff_eq]
  constructor
  · rintro ⟨t, ht, rfl⟩
    exact ht
  · intro ha
    exact ⟨a, ha, rfl⟩

/-- C9: every successful option application consumes at least one token — on a
non-empty token list, `Opt.doNow` returning normally strictly decreases the
token count.  This is the measure under which the Option-List Processor's
loop (`processOptions`, defined by recursion on `args.length`) terminates on
every input. -/
theorem doNow_strictly_consumes (o : Opt) (args : List String) (store : Store)
    (hne : args ≠ []) :
    ∀ (out args' : List String) (store' : Store),
      o.doNow args store = .ok out (args', store') →
      args'.length < args.length := by
  intro out args' store' h
  rw [doNow_ok_args h]
  cases args with
  | nil => exact absurd rfl hne
  | cons b bs => simp

/-- C10: applying a matched `ValueOption` or `FlagOption` removes exactly the
head token — the returned tokens are precisely the original tail, unchanged
and in order — and writes at most the single store entry at the canonical key
of the option's first tag: every other key keeps its previous value. -/
theorem doNow_frame_effect (tags : List String) (help a : String)
    (rest : List String) (store : Store) (o : Opt)
    (hvariant : o = .value tags help ∨ o = .flag tags help)
    (hcan : o.canDo (a :: rest) = true) :
    ∀ (out args' : List String) (store' : Store),
      o.doNow (a :: rest) store = .ok out (args', store') →
      args' = rest ∧
      ∀ (k : String), k ≠ canonicalKey tags → store'.get k = store.get k := by
  intro out args' store' h
  rcases hvariant with rfl | rfl
  · simp [Opt.doNow] at h
    obtain ⟨-, h1, h2⟩ := h
    subst h2
    exact ⟨h1.symm, fun k hk => by simp [Store.get, Store.set, hk]⟩
  · simp [Opt.doNow] at h
    obtain ⟨-, h1, h2⟩ := h
    subst h2
    exact ⟨h1.symm, fun k hk => by simp [Store.get, Store.set, hk]⟩

/-- C7: with the built-in help flag registered as a global option,
`process(["--help"])` does not print the help document and exit 0.  The
engine never awaits the callback's promise, so the `Deno.exit(0)` that
follows `await show(cli)` is queued behind the dispatcher's synchronous
continuation: the flag consumes the only token, the dispatcher finds no
tokens left, writes "Error: Invalid arguments - no command specified" and
exits with `-1` — before the queued help output or `Deno.exit(0)` ever
runs.  This holds for any CLI name, description and command list. -/
theorem process_help_flag_exits_with_error (name help : String)
    (cmds : List Cmd) :
    process (Definition.mk name help [helpFlagSyncPrefix] cmds) ["--help"] =
      .exit ["Error: Invalid arguments - no command specified"] (-1) := by
  simp [process, processOptions, helpFlagSyncPrefix, Opt.canDo, Opt.doNow,
    jsStartsWith, reportErrorAndTerminate]

theorem processOptions_normal_return_witness :
    (["pos"] : List String) = [] ∨
      (∃ a t, (["pos"] : List String) = a :: t ∧ jsStartsWith a "-" = false) ∨
      (∃ k, (["-x", "--", "pos"] : List String).drop k = "--" :: ["pos"]) :=
  processOptions_normal_return [Opt.flag ["-x"] "enable x"]
    ["-x", "--", "pos"] Store.empty [] ["pos"]
    (Store.empty.set "x" (.bool true))
    (by simp [processOptions, Opt.canDo, Opt.doNow, jsStartsWith,
      canonicalKey, dropWhileStr])

theorem valueOption_doNow_stores_value_witness :
    ((Opt.value ["--foo"] "sets foo").doNow ["--foo=bar"] Store.empty =
      .ok [] ([], Store.empty.set "foo" (.str "bar"))) ∧
    ((Store.empty.set "foo" (.str "bar")).get "foo" = some (.str "bar")) ∧
    ((Opt.value ["--foo"] "sets foo").doNow ["--foo="] Store.empty =
      .ok [] ([], Store.empty.set "foo" (.str ""))) ∧
    ((Store.empty.set "foo" (.str "")).get "foo" = some (.str "")) :=
  ⟨valueOption_doNow_stores_value ["--foo"] "sets foo" "--foo=bar" []
      Store.empty (by decide) "--foo" "bar" (by decide) (by decide)
      "--foo" [] rfl ['-', '-'] "foo".data (by decide) (by decide) (by decide),
   rfl,
   valueOption_doNow_stores_value ["--foo"] "sets foo" "--foo=" []
      Store.empty (by decide) "--foo" "" (by decide) (by decide)
      "--foo" [] rfl ['-', '-'] "foo".data (by decide) (by decide) (by decide),
   rfl⟩

theorem valueCommand_doNow_cases_witness :
    ((Cmd.value "run" "runs it" [] ⟨"File", false, "the file"⟩
        (fun _ _ => .ok [] ())).doNow ["a", "b"] Store.empty =
      .exit ["Error: Too many arguments a,b"] (-1)) ∧
    ((Cmd.value "run" "runs it" [] ⟨"File", false, "the file"⟩
        (fun _ _ => .ok [] ())).doNow [] Store.empty =
      .exit ["Error: File requires a value"] (-1)) :=
  ⟨(valueCommand_doNow_cases "run" "runs it" [] ⟨"File", false, "the file"⟩
      (fun _ _ => .ok [] ()) ["a", "b"] Store.empty [] ["a", "b"] Store.empty
      (by simp [processOptions, jsStartsWith])).2.2.2 (by decide),
   (valueCommand_doNow_cases "run" "runs it" [] ⟨"File", false, "the file"⟩
      (fun _ _ => .ok [] ()) [] Store.empty [] [] Store.empty
      (by simp [processOptions])).2.1 rfl rfl⟩

theorem processOptions_first_declared_wins_witness :
    processOptions [Opt.flag ["-x"] "first", Opt.flag ["-x"] "second"]
        ["-x"] Store.empty =
      Eff.withOut []
        (processOptions [Opt.flag ["-x"] "first", Opt.flag ["-x"] "second"]
          [] (Store.empty.set "x" (.bool true))) :=
  (processOptions_first_declared_wins
      [Opt.flag ["-x"] "first", Opt.flag ["-x"] "second"] "-x" [] Store.empty
      (by decide) (by decide) 0 (Opt.flag ["-x"] "first") rfl (by decide)
      (fun j hj => absurd hj (Nat.not_lt_zero j))).2
    [] [] (Store.empty.set "x" (.bool true)) rfl

theorem process_dispatch_witness :
    process
      (Definition.mk "app" "demo" []
        [Cmd.value "run" "runs it" [] ⟨"File", true, "the file"⟩
          (fun _ _ => .ok [] ())])
      ["run", "f.txt"] =
      Eff.withOut []
        ((Cmd.value "run" "runs it" [] ⟨"File", true, "the file"⟩
          (fun _ _ => .ok [] ())).doNow ["f.txt"] Store.empty) :=
  (process_dispatch
      (Definition.mk "app" "demo" []
        [Cmd.value "run" "runs it" [] ⟨"File", true, "the file"⟩
          (fun _ _ => .ok [] ())])
      ["run", "f.txt"] [] ["run", "f.txt"] Store.empty
      (by simp [processOptions, jsStartsWith])).2.2.2.2 "run" ["f.txt"] rfl
    0 (Cmd.value "run" "runs it" [] ⟨"File", true, "the file"⟩
        (fun _ _ => .ok [] ()))
    rfl (by decide) (fun j hj => absurd hj (Nat.not_lt_zero j))

theorem fatal_errors_single_line_then_exit_witness :
    (processOptions [] ["-q"] Store.empty =
      .exit ["Error: Invalid option -q"] (-1)) ∧
    (helpCmdAction [] [] (fun _ => []) (some "nope") Store.empty =
      .exit ["Error: Unknown command nope"] (-1)) :=
  ⟨fatal_errors_single_line_then_exit.2.2.1 [] "-q" [] Store.empty
      (by decide) (by decide) rfl,
   fatal_errors_single_line_then_exit.2.2.2.2.2.2.2 [] [] (fun _ => [])
      "nope" Store.empty rfl⟩

theorem flagOption_exact_tag_match_witness :
    (((Opt.flag ["-x"] "enable").canDo ["-x"] = true) ↔ "-x" ∈ ["-x"]) ∧
    ((Opt.flag ["-x"] "enable").canDo ["-x"] = true) ∧
    ((Opt.flag ["-x"] "enable").canDo ["-xx"] = false) ∧
    ((Opt.flag ["-x"] "enable").canDo ["-x=y"] = false) ∧
    ((Opt.flag ["-x"] "enable").doNow ["-x"] Store.empty =
      .ok [] ([], Store.empty.set "x" (.bool true))) :=
  flagOption_exact_tag_match ["-x"] "enable" "-x" [] Store.empty

theorem doNow_strictly_consumes_witness :
    (["y"] : List String).length < (["-x", "y"] : List String).length :=
  doNow_strictly_consumes (Opt.flag ["-x"] "enable") ["-x", "y"] Store.empty
    (by decide) [] ["y"] (Store.empty.set "x" (.bool true)) rfl

theorem doNow_frame_effect_witness :
    (([] : List String) = []) ∧
    ((Store.empty.set "foo" (.str "bar")).get "other" = Store.empty.get "other") :=
  have h := doNow_frame_effect ["--foo"] "sets foo" "--foo=bar" [] Store.empty
    (Opt.value ["--foo"] "sets foo") (Or.inl rfl) (by decide)
    [] [] (Store.empty.set "foo" (.str "bar")) rfl
  ⟨h.1, h.2 "other" (by decide)⟩

end ConsoleCli
